import Mathlib

/-!
Shallow embedding of the JSON history backend (xonsh/history/json.py) and
verification of its specification claims.

Conventions of the embedding:
* Python ints and timestamps are modelled as `Int`; counts and sizes as `Nat`
  where the source only ever holds non-negative values.
* Python list slicing `l[:e]` (with a possibly negative endpoint) is modelled
  by `pySliceTo`; plain indexing `l[i]` (negative indices wrap, out of range
  raises IndexError) by `pyListGet`.
* Exceptions are modelled with `Except HistError`.
* The external lazy JSON reader is modelled by its contract: indexed access
  into the `cmds` array of a session file.
-/

/-- Equality of `Except` results is decidable, so concrete runs of the
embedded operations can be checked by evaluation. -/
instance {ε α : Type} [DecidableEq ε] [DecidableEq α] : DecidableEq (Except ε α) := fun a b =>
  match a, b with
  | .ok x, .ok y =>
      if h : x = y then .isTrue (by rw [h]) else .isFalse (fun hh => by cases hh; exact h rfl)
  | .error x, .error y =>
      if h : x = y then .isTrue (by rw [h]) else .isFalse (fun hh => by cases hh; exact h rfl)
  | .ok _, .error _ => .isFalse (fun hh => by cases hh)
  | .error _, .ok _ => .isFalse (fun hh => by cases hh)

/-- A JSON value as used by the history records: strings, integers and the
two-element timestamp arrays. -/
inductive JVal where
  | str (s : String)
  | int (n : Int)
  | pair (a b : Int)
  deriving DecidableEq

/-- The five command fields served by JsonCommandField. -/
inductive CField where
  | ts | inp | out | rtn | cwd
  deriving DecidableEq

/-- One command record (`cmds` element).  `inp`, `rtn` and `ts` are always
present (append requires them); `cwd` and `out` are optional keys. -/
structure Entry where
  inp : JVal
  rtn : JVal
  ts : JVal
  cwd : Option JVal
  out : Option JVal
  deriving DecidableEq

/-- Python exceptions raised by the embedded code. -/
inductive HistError where
  | indexError (msg : String)
  | valueError (msg : String)
  | oserror (msg : String)
  deriving DecidableEq

/-- `cmd.get(field, default)`: the field value if the key is present,
otherwise the supplied default (`none` models Python None). -/
def Entry.getField (e : Entry) (f : CField) (dflt : Option JVal) : Option JVal :=
  match f with
  | .ts => some e.ts
  | .inp => some e.inp
  | .out => match e.out with | some v => some v | none => dflt
  | .rtn => some e.rtn
  | .cwd => match e.cwd with | some v => some v | none => dflt

/-- The session file on disk: session id and metadata, plus the `cmds`
array.  `tsEnd`/`locked` model the `ts[1]` end stamp and the lock flag that
`JsonHistoryFlusher.dump` touches when flushing at exit. -/
structure SessionFile where
  sessionid : String
  locked : Bool
  tsEnd : Option Int
  cmds : List Entry
  deriving DecidableEq

/-- The environment options consulted by the flusher and the field accessor:
`HISTCONTROL` flags and `XONSH_STORE_STDOUT`. -/
structure Config where
  histIgnoredups : Bool
  histIgnoreerr : Bool
  storeStdout : Bool
  deriving DecidableEq

/-- The mutable state of a `JsonHistory` object that the claims are about:
the recording switch, the in-memory buffer, the `_len` and `_skipped`
counters, and the on-disk session file. -/
structure JsonHistoryState where
  remember_history : Bool
  buffer : List Entry
  _len : Nat
  _skipped : Nat
  file : SessionFile
  deriving DecidableEq

/-- Python list slice `l[:e]` for an arbitrary integer endpoint: a
non-negative endpoint takes that many elements (so `l[:-0] = l[:0] = []`),
a negative endpoint counts from the end, clamped at the start. -/
def pySliceTo {α : Type} (l : List α) (e : Int) : List α :=
  if 0 ≤ e then l.take e.toNat else l.take ((l.length : Int) + e).toNat

/-- Python list indexing `l[i]`: negative indices wrap once from the end;
anything still out of range is an IndexError (modelled as `none`). -/
def pyListGet {α : Type} (l : List α) (i : Int) : Option α :=
  let j : Int := if i < 0 then (l.length : Int) + i else i
  if 0 ≤ j then l.get? j.toNat else none

/- ------------------------------------------------------------------ -/
/- Retention (GC) policies, from _xhj_gc_*_to_rmfiles.                 -/
/- ------------------------------------------------------------------ -/

/-- A history file as enumerated for GC: (effective timestamp, number of
commands, path, byte size), lists sorted oldest first. -/
structure GCFile where
  ts : Int
  ncmds : Nat
  path : String
  fsize : Nat
  deriving DecidableEq

/-- The newest-to-oldest accumulation loop of `_xhj_gc_commands_to_rmfiles`:
given the reversed file list, count how many newest files fit under the
command limit, stopping at the first file that would push the running total
over it. -/
def commandsKeepCount (hsize : Int) (ncmds : Int) : List GCFile → Nat
  | [] => 0
  | f :: rest =>
      if ncmds + (f.ncmds : Int) > hsize then 0
      else 1 + commandsKeepCount hsize (ncmds + (f.ncmds : Int)) rest

/-- `_xhj_gc_commands_to_rmfiles hsize files`: number of commands removed and
the list of files to remove, for the command-count retention policy. -/
def _xhj_gc_commands_to_rmfiles (hsize : Int) (files : List GCFile) : Nat × List GCFile :=
  let n := commandsKeepCount hsize 0 files.reverse
  let files_removed := pySliceTo files (-(n : Int))
  (files_removed.foldl (fun acc f => acc + f.ncmds) 0, files_removed)

/-- `_xhj_gc_files_to_rmfiles hsize files`: the file-count retention policy,
`files[:-hsize] if len(files) > hsize else []` with its length as the
amount over the limit. -/
def _xhj_gc_files_to_rmfiles (hsize : Int) (files : List GCFile) : Nat × List GCFile :=
  let rmfiles := if (files.length : Int) > hsize then pySliceTo files (-hsize) else []
  (rmfiles.length, rmfiles)

/-- The oldest-first scan of `_xhj_gc_seconds_to_rmfiles`: count the files
whose age `now - ts` is at least the limit, stopping at the first younger
file. -/
def secondsRmCount (now hsize : Int) : List GCFile → Nat
  | [] => 0
  | f :: rest => if now - f.ts < hsize then 0 else 1 + secondsRmCount now hsize rest

/-- `_xhj_gc_seconds_to_rmfiles hsize files` (with `time.time()` passed in as
`now`): the age retention policy.  The excess duration is measured from the
oldest removed file; the unreachable empty case of `rmfiles[0]` is 0. -/
def _xhj_gc_seconds_to_rmfiles (now hsize : Int) (files : List GCFile) : Int × List GCFile :=
  let n := secondsRmCount now hsize files
  let rmfiles := files.take n
  let size_over := if 0 < n then now - hsize - (match rmfiles.head? with | some f => f.ts | none => 0) else 0
  (size_over, rmfiles)

/-- The newest-to-oldest accumulation loop of `_xhj_gc_bytes_to_rmfiles`. -/
def bytesKeepCount (hsize : Int) (nbytes : Int) : List GCFile → Nat
  | [] => 0
  | f :: rest =>
      if nbytes + (f.fsize : Int) > hsize then 0
      else 1 + bytesKeepCount hsize (nbytes + (f.fsize : Int)) rest

/-- `_xhj_gc_bytes_to_rmfiles hsize files`: the byte-size retention policy,
symmetric to the command-count one. -/
def _xhj_gc_bytes_to_rmfiles (hsize : Int) (files : List GCFile) : Nat × List GCFile :=
  let n := bytesKeepCount hsize 0 files.reverse
  let files_removed := pySliceTo files (-(n : Int))
  (files_removed.foldl (fun acc f => acc + f.fsize) 0, files_removed)

/- ------------------------------------------------------------------ -/
/- Flusher (JsonHistoryFlusher.dump) and session store operations.     -/
/- ------------------------------------------------------------------ -/

/-- The HISTCONTROL filtering loop at the start of `JsonHistoryFlusher.dump`:
walk the buffered commands, dropping duplicates of the previously kept
input when ignoredups is set and failed commands when ignoreerr is set;
each drop calls `self.skip(1)`.  Returns the kept commands and the number
of skipped ones. -/
def dumpFilterAux (cfg : Config) (last_inp : Option JVal) : List Entry → List Entry × Nat
  | [] => ([], 0)
  | cmd :: rest =>
      if cfg.histIgnoredups && (some cmd.inp == last_inp) then
        let r := dumpFilterAux cfg last_inp rest
        (r.1, r.2 + 1)
      else if cfg.histIgnoreerr && (cmd.rtn != JVal.int 0) then
        let r := dumpFilterAux cfg last_inp rest
        (r.1, r.2 + 1)
      else
        let r := dumpFilterAux cfg (some cmd.inp) rest
        (cmd :: r.1, r.2)

/-- `cmd.pop("out")`: removing the captured output from a record. -/
def stripEntryOut (e : Entry) : Entry := { e with out := none }

/-- `JsonHistoryFlusher.dump`: filter the buffered commands by HISTCONTROL,
append the survivors to the loaded file's `cmds`, stamp the end time and
clear the lock when flushing at exit, and pop `out` from the newly appended
records unless XONSH_STORE_STDOUT is set.  Returns the rewritten file and
the number of commands counted as skipped. -/
def JsonHistoryFlusher.dump (cfg : Config) (at_exit : Bool) (now : Int)
    (buffer : List Entry) (file : SessionFile) : SessionFile × Nat :=
  let r := dumpFilterAux cfg none buffer
  let load_hist_len := file.cmds.length
  let hist1 : SessionFile := { file with cmds := file.cmds ++ r.1 }
  let hist2 := if at_exit then { hist1 with tsEnd := some now, locked := false } else hist1
  let hist3 :=
    if cfg.storeStdout then hist2
    else { hist2 with cmds := hist2.cmds.take load_hist_len ++ (hist2.cmds.drop load_hist_len).map stripEntryOut }
  (hist3, r.2)

/-- `JsonHistory.flush`: a no-op when the buffer is empty; otherwise the
buffer is snapshotted and emptied and the flusher dumps it into the file
(the net state once the spawned flusher has completed), adding any skipped
commands to `_skipped`. -/
def JsonHistory.flush (cfg : Config) (at_exit : Bool) (now : Int)
    (st : JsonHistoryState) : JsonHistoryState :=
  if st.buffer.length = 0 then st
  else
    let r := JsonHistoryFlusher.dump cfg at_exit now st.buffer st.file
    { st with file := r.1, _skipped := st._skipped + r.2, buffer := [] }

/-- `JsonHistory.clear`: reset the buffer, the field accessors and the two
length counters in memory, then call `self.flush()`. -/
def JsonHistory.clear (cfg : Config) (now : Int) (st : JsonHistoryState) : JsonHistoryState :=
  JsonHistory.flush cfg false now
    { st with buffer := [], _len := 0, _skipped := 0 }

/- ------------------------------------------------------------------ -/
/- Field accessor: JsonCommandField.__getitem__.                       -/
/- ------------------------------------------------------------------ -/

/-- A Python key passed to `__getitem__`: an int, a slice (with optional
start, stop, step), or any other object (`other` carries a description of
the offending key). -/
inductive PyKey where
  | int (i : Int)
  | slice (start stop step : Option Int)
  | other (tag : String)
  deriving DecidableEq

/-- The result of `__getitem__`: a single value (possibly Python None), or a
list of values for a slice key. -/
inductive GetValue where
  | val (v : Option JVal)
  | list (vs : List (Option JVal))
  deriving DecidableEq

/-- `slice.indices(length)` as in CPython: default and clamp start/stop for
the given sequence length; a zero step is a ValueError. -/
def sliceIndices (startO stopO stepO : Option Int) (length : Int) :
    Except HistError (Int × Int × Int) :=
  let step := stepO.getD 1
  if step = 0 then .error (.valueError "slice step cannot be zero")
  else
    let lower : Int := if step < 0 then -1 else 0
    let upper : Int := if step < 0 then length - 1 else length
    let start := match startO with
      | none => if step < 0 then upper else lower
      | some s => if s < 0 then max (s + length) lower else min s upper
    let stop := match stopO with
      | none => if step < 0 then lower else upper
      | some s => if s < 0 then max (s + length) lower else min s upper
    .ok (start, stop, step)

/-- `range(start, stop, step)` for a nonzero step, as a list. -/
def pyRange (start stop step : Int) : List Int :=
  let count : Nat :=
    if 0 < step then ((stop - start + step - 1) / step).toNat
    else if step < 0 then ((start - stop + (-step) - 1) / (-step)).toNat
    else 0
  (List.range count).map (fun k => start + step * (k : Int))

/-- The integer branch of `JsonCommandField.__getitem__` (after the
disabled, slice, non-int and empty checks): normalize a negative key, serve
the last `len(buffer)` logical positions from the buffer, and otherwise
read `lj["cmds"][key]` from the file through the lazy reader.  The queue
discipline around the file read does not affect the value and is modelled
separately by `getitemQueueAfter`. -/
def getItemInt (st : JsonHistoryState) (field : CField) (dflt : Option JVal)
    (size : Int) (i : Int) : Except HistError (Option JVal) :=
  let key := if i < 0 then size + i else i
  let bufsize : Int := st.buffer.length
  if size - bufsize ≤ key then
    match pyListGet st.buffer (key + bufsize - size) with
    | none => .error (.indexError "list index out of range")
    | some e => .ok (e.getField field dflt)
  else
    match pyListGet st.file.cmds key with
    | none => .error (.indexError "list index out of range")
    | some e => .ok (e.getField field dflt)

/-- The body of `getItemInt` guarded by the `size == 0` check, exactly what
`self[i]` evaluates for an int `i` when history is enabled; used directly
by the slice branch's comprehension. -/
def getItemIntChecked (st : JsonHistoryState) (field : CField) (dflt : Option JVal)
    (size : Int) (i : Int) : Except HistError (Option JVal) :=
  if size = 0 then .error (.indexError "JsonCommandField is empty.")
  else getItemInt st field dflt size i

/-- `JsonCommandField.__getitem__`: return the empty string whenever history
recording is disabled; expand a slice through `slice.indices` and `range`,
reading each index recursively; reject any other non-int key; reject int
access to an empty sequence; otherwise serve the int branch. -/
def JsonCommandField.getitem (st : JsonHistoryState) (field : CField)
    (dflt : Option JVal) (key : PyKey) : Except HistError GetValue :=
  if st.remember_history = false then .ok (.val (some (.str "")))
  else
    let size : Int := (st._len : Int) - (st._skipped : Int)
    match key with
    | .slice a b c =>
        match sliceIndices a b c size with
        | .error e => .error e
        | .ok r =>
            match (pyRange r.1 r.2.1 r.2.2).mapM (getItemIntChecked st field dflt size) with
            | .error e => .error e
            | .ok vs => .ok (.list vs)
    | .other _ => .error (.indexError "JsonCommandField may only be indexed by int or slice.")
    | .int i =>
        match getItemIntChecked st field dflt size i with
        | .error e => .error e
        | .ok v => .ok (.val v)

/- ------------------------------------------------------------------ -/
/- Access Serializer queue discipline.                                 -/
/- ------------------------------------------------------------------ -/

/-- `i_am_at_the_front`: an enqueued operation may proceed exactly when it
is the head of its file's queue. -/
def i_am_at_the_front (op : Nat) (queue : List Nat) : Bool :=
  queue.head? == some op

/-- Queue effect of the file-read branch of `JsonCommandField.__getitem__`:
the operation appends itself, waits until it is at the front, performs the
open and indexed read, and calls `queue.popleft()` only after they succeed;
an exception raised by the open or the read propagates out of the `with`
block before the `popleft` line, leaving the operation enqueued. -/
def getitemQueueAfter (queue : List Nat) (op : Nat) (readOk : Bool) : List Nat :=
  let q := queue ++ [op]
  if readOk then q.tail else q

/-- Queue effect of `JsonHistoryFlusher.run`: the flusher was appended in
`__init__`; `run` waits for the front, dumps, and pops only after `dump()`
returns, so an exception inside `dump` leaves the flusher enqueued. -/
def flusherRunQueueAfter (queue : List Nat) (op : Nat) (dumpOk : Bool) : List Nat :=
  let q := queue ++ [op]
  if dumpOk then q.tail else q

/- ------------------------------------------------------------------ -/
/- JsonHistory.delete.                                                 -/
/- ------------------------------------------------------------------ -/

/-- The `for i, cmd in enumerate(lst): if pattern.match(...): del lst[i]`
loop of `JsonHistory.delete`, transcribed with its iterator index `j` and
running deletion count; the enumerate counter always equals the position
just read, so `del lst[i]` erases that position and the iterator then
skips the element that slid into it.  The fuel argument starts at the list
length, which always bounds the remaining iterations, so it never cuts the
loop short. -/
def pyDelLoop {α : Type} (p : α → Bool) : Nat → List α → Nat → Nat → List α × Nat
  | 0, l, _, d => (l, d)
  | fuel + 1, l, j, d =>
      if h : j < l.length then
        if p (l.get ⟨j, h⟩) then pyDelLoop p fuel (l.eraseIdx j) (j + 1) (d + 1)
        else pyDelLoop p fuel l (j + 1) d
      else (l, d)

/-- One full run of the enumerate-and-delete loop over a list. -/
def pyDeleteMatching {α : Type} (p : α → Bool) (l : List α) : List α × Nat :=
  pyDelLoop p l.length l 0 0

/-- `JsonHistory.delete`: run the enumerate-and-delete loop first over the
in-memory buffer, then over each enumerable history file's `cmds` array
(each rewritten in place), accumulating the deletion count that is
returned.  `matcher` stands for `re.compile(pattern).match(cmd["inp"])`. -/
def JsonHistory.delete (matcher : Entry → Bool) (buffer : List Entry)
    (files : List (List Entry)) : List Entry × List (List Entry) × Nat :=
  let rb := pyDeleteMatching matcher buffer
  let rf := files.foldl
    (fun (acc : List (List Entry) × Nat) cmds =>
      let rc := pyDeleteMatching matcher cmds
      (acc.1 ++ [rc.1], acc.2 + rc.2))
    ([], rb.2)
  (rb.1, rf.1, rf.2)

/- ------------------------------------------------------------------ -/
/- JsonHistory.pull: effect on the per-source cursor map.              -/
/- ------------------------------------------------------------------ -/

/-- `self.last_pull_times[k] = v` on a Python dict modelled as an
association list with unique keys: replace the first matching key or
append a new binding. -/
def assocSet (m : List (Option String × Int)) (k : Option String) (v : Int) :
    List (Option String × Int) :=
  match m with
  | [] => [(k, v)]
  | kv :: rest => if kv.1 = k then (k, v) :: rest else kv :: assocSet rest k v

/-- Dict lookup on the association list. -/
def assocGet (m : List (Option String × Int)) (k : Option String) : Option Int :=
  match m with
  | [] => none
  | kv :: rest => if kv.1 = k then some kv.2 else assocGet rest k

/-- The effect of `JsonHistory.pull` on `last_pull_times`: untouched when
the shell type is unsupported (early return); otherwise the map is reset to
empty first when no source session was given (`src_sessionid is None`), and
then the entry for the requested key (the sentinel `none` for a full pull)
is set to the current time. -/
def JsonHistory.pull (shellSupported : Bool) (src_sessionid : Option String)
    (now : Int) (times : List (Option String × Int)) : List (Option String × Int) :=
  if shellSupported = false then times
  else
    let times1 := if src_sessionid = none then [] else times
    assocSet times1 src_sessionid now

/- ------------------------------------------------------------------ -/
/- Sample data for witnesses and counterexamples.                      -/
/- ------------------------------------------------------------------ -/

/-- A sample GC file descriptor. -/
def gcFileA : GCFile := { ts := 1, ncmds := 5, path := "a", fsize := 10 }

/-- A second, newer sample GC file descriptor. -/
def gcFileB : GCFile := { ts := 2, ncmds := 3, path := "b", fsize := 20 }

/-- A sample command record with input text "ls". -/
def entryLs : Entry :=
  { inp := .str "ls", rtn := .int 0, ts := .pair 1 2, cwd := none, out := none }

/-- A sample command record carrying captured output. -/
def entryOutHello : Entry := { entryLs with out := some (.str "hello") }

/-- The environment with no HISTCONTROL options and output capture off
(the XONSH_STORE_STDOUT default). -/
def cfgPlain : Config := { histIgnoredups := false, histIgnoreerr := false, storeStdout := false }

/-- A session whose single command has already been flushed to disk: empty
buffer, logical length 1, one command in the file. -/
def stFlushedOne : JsonHistoryState :=
  { remember_history := true, buffer := [], _len := 1, _skipped := 0,
    file := { sessionid := "sess", locked := true, tsEnd := none, cmds := [entryLs] } }

/-- A session holding one still-buffered command with captured output. -/
def stOutBuffered : JsonHistoryState :=
  { remember_history := true, buffer := [entryOutHello], _len := 1, _skipped := 0,
    file := { sessionid := "sess", locked := true, tsEnd := none, cmds := [] } }

/-- An enabled session with no history at all. -/
def stEmpty : JsonHistoryState :=
  { remember_history := true, buffer := [], _len := 0, _skipped := 0,
    file := { sessionid := "sess", locked := true, tsEnd := none, cmds := [] } }

/-- The matcher for the pattern "ls": `re.compile("ls").match(cmd["inp"])`
holds exactly on records whose input is the string "ls". -/
def matchLs (e : Entry) : Bool := e.inp == JVal.str "ls"

/- ------------------------------------------------------------------ -/
/- Helper lemmas.                                                      -/
/- ------------------------------------------------------------------ -/

/-- A Python slice `l[:e]` is always an initial segment of `l`. -/
theorem pySliceTo_eq_take {α : Type} (l : List α) (e : Int) :
    ∃ k, pySliceTo l e = l.take k := by
  unfold pySliceTo
  by_cases h : 0 ≤ e
  · exact ⟨e.toNat, by rw [if_pos h]⟩
  · exact ⟨((l.length : Int) + e).toNat, by rw [if_neg h]⟩

/-- `l[:0]` is empty. -/
theorem pySliceTo_zero {α : Type} (l : List α) : pySliceTo l 0 = [] := by
  simp [pySliceTo]

/-- With neither ignoredups nor ignoreerr configured, the HISTCONTROL
filter of the flusher keeps every buffered command and skips none. -/
theorem dumpFilterAux_id (cfg : Config) (hd : cfg.histIgnoredups = false)
    (he : cfg.histIgnoreerr = false) :
    ∀ (last : Option JVal) (buf : List Entry), dumpFilterAux cfg last buf = (buf, 0) := by
  intro last buf
  induction buf generalizing last with
  | nil => rfl
  | cons c rest ih => simp [dumpFilterAux, hd, he, ih]

/-- Stripping the captured output leaves every other field read intact. -/
theorem getField_stripEntryOut (e : Entry) (fld : CField) (dflt : Option JVal)
    (h : fld ≠ CField.out) :
    (stripEntryOut e).getField fld dflt = e.getField fld dflt := by
  cases fld <;> simp_all [stripEntryOut, Entry.getField]

/-- Updating one key of the cursor map sets that key. -/
theorem assocGet_assocSet_self (m : List (Option String × Int)) (k : Option String) (v : Int) :
    assocGet (assocSet m k v) k = some v := by
  induction m with
  | nil => simp [assocSet, assocGet]
  | cons kv rest ih =>
      by_cases h : kv.1 = k
      · simp [assocSet, assocGet, h]
      · simp [assocSet, assocGet, h, ih]

/-- Updating one key of the cursor map leaves every other key unchanged. -/
theorem assocGet_assocSet_ne (m : List (Option String × Int)) (k k' : Option String)
    (v : Int) (h : k' ≠ k) :
    assocGet (assocSet m k v) k' = assocGet m k' := by
  induction m with
  | nil => simp [assocSet, assocGet, Ne.symm h]
  | cons kv rest ih =>
      by_cases h2 : kv.1 = k
      · simp [assocSet, assocGet, h2, Ne.symm h]
      · simp [assocSet, assocGet, h2, ih]

/- ------------------------------------------------------------------ -/
/- Claim theorems.                                                     -/
/- ------------------------------------------------------------------ -/

/-- C1: refuted on the code.  If the open or the indexed read raises after
the operation enqueued itself, `queue.popleft()` is skipped (there is no
try/finally), so the operation stays in the queue and a waiter enqueued
afterwards is never at the front; the same holds for a flusher whose
`dump()` raises inside `run`. -/
theorem queue_entry_leaks_on_failed_io :
    getitemQueueAfter [] 0 false = [0] ∧
    i_am_at_the_front 1 (getitemQueueAfter [] 0 false ++ [1]) = false ∧
    flusherRunQueueAfter [] 0 false = [0] ∧
    i_am_at_the_front 1 (flusherRunQueueAfter [] 0 false ++ [1]) = false := by
  decide

/-- C2: refuted on the code.  On a session whose file already holds one
flushed command, `clear()` does reset the buffer and both length counters,
but the final `self.flush()` returns immediately on the now-empty buffer,
so the on-disk `cmds` array still holds its one command instead of zero
(the session id is, as claimed, preserved). -/
theorem clear_does_not_reset_disk_file :
    (JsonHistory.clear cfgPlain 0 stFlushedOne).buffer = [] ∧
    (JsonHistory.clear cfgPlain 0 stFlushedOne)._len = 0 ∧
    (JsonHistory.clear cfgPlain 0 stFlushedOne)._skipped = 0 ∧
    (JsonHistory.clear cfgPlain 0 stFlushedOne).file.sessionid = "sess" ∧
    (JsonHistory.clear cfgPlain 0 stFlushedOne).file.cmds = [entryLs] := by
  decide

/-- C4: refuted on the code.  Deleting during `enumerate` skips the element
that slides into the freed slot, so of two adjacent matching records (in
the buffer and likewise in a file's cmds array) only the first is removed
and counted: with pattern "ls", buffer ["ls","ls"] and one file
["ls","ls"], delete leaves one "ls" in each and returns 2, not 4. -/
theorem delete_skips_second_adjacent_match :
    JsonHistory.delete matchLs [entryLs, entryLs] [[entryLs, entryLs]] =
      ([entryLs], [[entryLs]], 2) := by
  decide

/-- C10: when history recording is disabled, `__getitem__` returns the
empty string for every key — int, negative, out-of-range, slice or any
other object — without reading the file (the state, including the file
contents, is arbitrary) and without raising, because the disabled check is
the first statement of the method. -/
theorem getitem_disabled_returns_empty_string (st : JsonHistoryState) (fld : CField)
    (dflt : Option JVal) (key : PyKey) (h : st.remember_history = false) :
    JsonCommandField.getitem st fld dflt key = .ok (.val (some (.str ""))) := by
  unfold JsonCommandField.getitem
  rw [h]
  simp

/-- Witness for C10: a disabled session returns "" even for a dict key. -/
theorem getitem_disabled_returns_empty_string_witness :
    JsonCommandField.getitem { stEmpty with remember_history := false } CField.inp none
      (.other "dict") = .ok (.val (some (.str ""))) :=
  getitem_disabled_returns_empty_string _ _ _ _ rfl

/-- C3: with history recording enabled, a key that is neither an int nor a
slice raises IndexError("JsonCommandField may only be indexed by int or
slice.") whatever the length, and an int key on a zero-length logical
history raises IndexError("JsonCommandField is empty."); in both cases the
caller gets a precise error, never a clamped or defaulted value. -/
theorem getitem_enabled_precise_errors (st : JsonHistoryState) (fld : CField)
    (dflt : Option JVal) (h : st.remember_history = true) :
    (∀ tag, JsonCommandField.getitem st fld dflt (.other tag) =
        .error (.indexError "JsonCommandField may only be indexed by int or slice.")) ∧
    ((st._len : Int) - (st._skipped : Int) = 0 →
      ∀ i, JsonCommandField.getitem st fld dflt (.int i) =
        .error (.indexError "JsonCommandField is empty.")) := by
  constructor
  · intro tag
    unfold JsonCommandField.getitem
    rw [h]
    simp
  · intro hz i
    unfold JsonCommandField.getitem getItemIntChecked
    rw [h]
    simp [hz]

/-- Witness for C3: on an enabled, empty session both errors are raised. -/
theorem getitem_enabled_precise_errors_witness :
    JsonCommandField.getitem stEmpty CField.inp none (.other "dict") =
        .error (.indexError "JsonCommandField may only be indexed by int or slice.") ∧
    JsonCommandField.getitem stEmpty CField.inp none (.int 0) =
        .error (.indexError "JsonCommandField is empty.") :=
  ⟨(getitem_enabled_precise_errors stEmpty CField.inp none rfl).1 "dict",
   (getitem_enabled_precise_errors stEmpty CField.inp none rfl).2 (by decide) 0⟩

/-- C9: a full pull (no source session) replaces the cursor map by the
single sentinel entry carrying the new full-pull time; a pull scoped to one
source sets exactly that source's cursor and leaves every other key,
including the sentinel, unchanged.  Requires the shell-type check at the
top of `pull` to pass, since an unsupported shell returns before touching
the map. -/
theorem pull_cursor_map_update (sup : Bool) (times : List (Option String × Int))
    (now : Int) (s : String) (h : sup = true) :
    JsonHistory.pull sup none now times = [(none, now)] ∧
    assocGet (JsonHistory.pull sup (some s) now times) (some s) = some now ∧
    (∀ k, k ≠ some s →
      assocGet (JsonHistory.pull sup (some s) now times) k = assocGet times k) := by
  subst h
  refine ⟨rfl, ?_, ?_⟩
  · unfold JsonHistory.pull
    simp [assocGet_assocSet_self]
  · intro k hk
    unfold JsonHistory.pull
    simp [assocGet_assocSet_ne times (some s) k now hk]

/-- Witness for C9 at a concrete two-entry cursor map. -/
theorem pull_cursor_map_update_witness :
    JsonHistory.pull true none 50 [(some "a", 1), (none, 2)] = [(none, 50)] ∧
    assocGet (JsonHistory.pull true (some "b") 50 [(some "a", 1), (none, 2)]) (some "b") =
      some 50 ∧
    assocGet (JsonHistory.pull true (some "b") 50 [(some "a", 1), (none, 2)]) none = some 2 :=
  ⟨(pull_cursor_map_update true [(some "a", 1), (none, 2)] 50 "b" rfl).1,
   (pull_cursor_map_update true [(some "a", 1), (none, 2)] 50 "b" rfl).2.1,
   by
    rw [(pull_cursor_map_update true [(some "a", 1), (none, 2)] 50 "b" rfl).2.2 none
      (by decide)]
    rfl⟩

/-- C6: for the command-count and byte-size policies, when the newest
(last) file's own metric already exceeds the limit, the newest-to-oldest
accumulation stops before counting any file, the keep count stays at zero,
and slicing off zero files from the end removes nothing: the policy
returns an amount-over-limit of zero and an empty removal list. -/
theorem gc_newest_file_over_limit_removes_nothing (hsize : Int) (files : List GCFile)
    (f : GCFile) (hlast : files.getLast? = some f) :
    (hsize < (f.ncmds : Int) → _xhj_gc_commands_to_rmfiles hsize files = (0, [])) ∧
    (hsize < (f.fsize : Int) → _xhj_gc_bytes_to_rmfiles hsize files = (0, [])) := by
  have hrev : files.reverse.head? = some f := by
    rw [List.head?_reverse]; exact hlast
  obtain ⟨t, ht⟩ : ∃ t, files.reverse = f :: t := by
    cases hr : files.reverse with
    | nil => rw [hr] at hrev; simp at hrev
    | cons a t =>
        rw [hr] at hrev
        simp at hrev
        exact ⟨t, by rw [hrev]⟩
  constructor
  · intro h
    unfold _xhj_gc_commands_to_rmfiles
    rw [ht]
    unfold commandsKeepCount
    rw [if_pos (by omega)]
    simp [pySliceTo_zero]
  · intro h
    unfold _xhj_gc_bytes_to_rmfiles
    rw [ht]
    unfold bytesKeepCount
    rw [if_pos (by omega)]
    simp [pySliceTo_zero]

/-- Witness for C6: limit 8 with newest file holding 10 commands and 30
bytes removes nothing under either policy. -/
theorem gc_newest_file_over_limit_removes_nothing_witness :
    _xhj_gc_commands_to_rmfiles 8 [gcFileA, { gcFileB with ncmds := 10, fsize := 30 }] =
        (0, []) ∧
    _xhj_gc_bytes_to_rmfiles 8 [gcFileA, { gcFileB with ncmds := 10, fsize := 30 }] =
        (0, []) :=
  ⟨(gc_newest_file_over_limit_removes_nothing 8
      [gcFileA, { gcFileB with ncmds := 10, fsize := 30 }]
      { gcFileB with ncmds := 10, fsize := 30 } rfl).1 (by decide),
   (gc_newest_file_over_limit_removes_nothing 8
      [gcFileA, { gcFileB with ncmds := 10, fsize := 30 }]
      { gcFileB with ncmds := 10, fsize := 30 } rfl).2 (by decide)⟩

/-- C7 counterexample: with limit 0 and one file, `len(files) > 0` holds
but `files[:-0]` is the empty slice, so the policy removes zero files and
reports zero over the limit, while the claim demands
`N - min(L, N) = 1 - min(0, 1) = 1` removed file. -/
theorem gc_files_policy_limit_zero_counterexample :
    ¬ ((_xhj_gc_files_to_rmfiles 0 [gcFileA]).2.length =
        [gcFileA].length - min 0 [gcFileA].length) := by
  decide

/-- C7 amended: for every positive file limit, the file-count policy marks
exactly the oldest `N - min(L, N)` files for removal (a prefix of the
oldest-first list, so the kept `min(L, N)` files are the newest) and
reports that removed count as the amount over the limit. -/
theorem gc_files_policy_keeps_min (L : Nat) (hL : 0 < L) (files : List GCFile) :
    _xhj_gc_files_to_rmfiles (L : Int) files =
      (files.length - min L files.length,
        files.take (files.length - min L files.length)) := by
  unfold _xhj_gc_files_to_rmfiles
  by_cases hc : (files.length : Int) > (L : Int)
  · rw [if_pos hc]
    have hlen : L < files.length := by exact_mod_cast hc
    have hmin : min L files.length = L := by omega
    have hslice : pySliceTo files (-(L : Int)) = files.take (files.length - L) := by
      unfold pySliceTo
      rw [if_neg (by omega)]
      congr 1
      omega
    rw [hslice, hmin]
    refine Prod.ext ?_ rfl
    simp [List.length_take]
  · rw [if_neg hc]
    have hlen : files.length ≤ L := by omega
    have hmin : min L files.length = files.length := by omega
    rw [hmin]
    simp

/-- Witness for C7 amended: limit 1 on two files removes exactly the
oldest one. -/
theorem gc_files_policy_keeps_min_witness :
    _xhj_gc_files_to_rmfiles (1 : Int) [gcFileA, gcFileB] = (1, [gcFileA]) := by
  have h := gc_files_policy_keeps_min 1 (by decide) [gcFileA, gcFileB]
  simpa using h

/-- C8: under each of the four retention policies the files marked for
removal form a contiguous initial segment (the oldest files) of the
oldest-first input list, so the kept files are always a contiguous suffix
of newest files. -/
theorem gc_removed_files_are_oldest_take (hsize now : Int) (files : List GCFile) :
    (∃ k, (_xhj_gc_commands_to_rmfiles hsize files).2 = files.take k) ∧
    (∃ k, (_xhj_gc_files_to_rmfiles hsize files).2 = files.take k) ∧
    (∃ k, (_xhj_gc_seconds_to_rmfiles now hsize files).2 = files.take k) ∧
    (∃ k, (_xhj_gc_bytes_to_rmfiles hsize files).2 = files.take k) := by
  refine ⟨?_, ?_, ?_, ?_⟩
  · exact pySliceTo_eq_take files _
  · unfold _xhj_gc_files_to_rmfiles
    by_cases hc : (files.length : Int) > hsize
    · rw [if_pos hc]; exact pySliceTo_eq_take files _
    · rw [if_neg hc]; exact ⟨0, rfl⟩
  · exact ⟨secondsRmCount now hsize files, rfl⟩
  · exact pySliceTo_eq_take files _

/-- A Python list read at a non-negative index is a plain indexed lookup. -/
theorem pyListGet_nonneg {α : Type} (l : List α) (i : Int) (h : 0 ≤ i) :
    pyListGet l i = l.get? i.toNat := by
  have h1 : ¬ i < 0 := by omega
  unfold pyListGet
  simp only [if_neg h1]
  rw [if_pos h]

/-- C5 counterexample: with output capture off (the XONSH_STORE_STDOUT
default), reading field `out` at index 0 returns the captured output while
the entry is buffered, but the flush pops `out` from the newly appended
record, so the same read returns the accessor default (None) right after
the flush. -/
theorem getitem_out_value_changes_across_flush :
    JsonCommandField.getitem stOutBuffered CField.out none (.int 0) =
        .ok (.val (some (.str "hello"))) ∧
    JsonCommandField.getitem (JsonHistory.flush cfgPlain false 0 stOutBuffered)
        CField.out none (.int 0) = .ok (.val none) := by
  decide

/-- With recording enabled and a nonzero logical length, `__getitem__` on an
int key is the int branch of the method. -/
theorem getitem_int_eq (st : JsonHistoryState) (fld : CField) (dflt : Option JVal)
    (i : Int) (hrem : st.remember_history = true)
    (hS : ¬ ((st._len : Int) - (st._skipped : Int) = 0)) :
    JsonCommandField.getitem st fld dflt (.int i) =
      match getItemInt st fld dflt ((st._len : Int) - (st._skipped : Int)) i with
      | .error e => .error e
      | .ok v => .ok (.val v) := by
  unfold JsonCommandField.getitem getItemIntChecked
  rw [hrem]
  simp [hS]

/-- When the key lands in the buffered tail, the int branch reads the
buffer at the buffer-relative position. -/
theorem getItemInt_eq_buffer (st : JsonHistoryState) (fld : CField) (dflt : Option JVal)
    (S i : Int) (hki : 0 ≤ i) (hc : S - (st.buffer.length : Int) ≤ i) :
    getItemInt st fld dflt S i =
      match st.buffer.get? (i + (st.buffer.length : Int) - S).toNat with
      | none => .error (.indexError "list index out of range")
      | some e => .ok (e.getField fld dflt) := by
  unfold getItemInt
  simp only [if_neg (show ¬ i < 0 by omega)]
  rw [if_pos hc, pyListGet_nonneg _ _ (by omega)]

/-- When the key falls before the buffered tail, the int branch reads the
file's cmds array through the lazy reader. -/
theorem getItemInt_eq_file (st : JsonHistoryState) (fld : CField) (dflt : Option JVal)
    (S i : Int) (hki : 0 ≤ i) (hc : ¬ (S - (st.buffer.length : Int) ≤ i)) :
    getItemInt st fld dflt S i =
      match st.file.cmds.get? i.toNat with
      | none => .error (.indexError "list index out of range")
      | some e => .ok (e.getField fld dflt) := by
  unfold getItemInt
  simp only [if_neg (show ¬ i < 0 by omega)]
  rw [if_neg hc, pyListGet_nonneg _ _ hki]

/-- C5 amended: with history recording enabled, with no HISTCONTROL
filtering configured (so the flush moves every buffered entry to the file,
as the claim presupposes), and for reads of `out` additionally with output
capture enabled (otherwise the flush strips `out` from the newly appended
records), a Field Accessor read at any logical index 0..length-1 returns
the same value immediately before and immediately after a flush.  The
`hlen` hypothesis is the invariant relating the logical length to the file
and buffer lengths that the buffer/file split of `__getitem__` relies on. -/
theorem getitem_value_stable_across_flush (st : JsonHistoryState) (cfg : Config)
    (fld : CField) (dflt : Option JVal) (i : Int)
    (hrem : st.remember_history = true)
    (hd : cfg.histIgnoredups = false) (he : cfg.histIgnoreerr = false)
    (hout : fld ≠ CField.out ∨ cfg.storeStdout = true)
    (hlen : (st._len : Int) - (st._skipped : Int) =
      (st.file.cmds.length : Int) + (st.buffer.length : Int))
    (hi0 : 0 ≤ i) (hi1 : i < (st._len : Int) - (st._skipped : Int)) :
    JsonCommandField.getitem st fld dflt (.int i) =
      JsonCommandField.getitem (JsonHistory.flush cfg false 0 st) fld dflt (.int i) := by
  by_cases hbuf : st.buffer = []
  · unfold JsonHistory.flush
    simp [hbuf]
  · have hbuflen : ¬ st.buffer.length = 0 := by simpa using hbuf
    have hfilter := dumpFilterAux_id cfg hd he none st.buffer
    have hflush : JsonHistory.flush cfg false 0 st =
        { st with
          file := { st.file with cmds := st.file.cmds ++
              (if cfg.storeStdout then st.buffer else st.buffer.map stripEntryOut) },
          buffer := [] } := by
      unfold JsonHistory.flush JsonHistoryFlusher.dump
      rw [if_neg hbuflen]
      by_cases hs : cfg.storeStdout
      · simp [hfilter, hs]
      · simp [hfilter, hs, List.take_left', List.drop_left']
    have hS0 : ¬ ((st._len : Int) - (st._skipped : Int) = 0) := by omega
    have key : ∀ st2 : JsonHistoryState,
        st2.remember_history = true →
        st2._len = st._len → st2._skipped = st._skipped →
        st2.buffer = [] →
        st2.file.cmds = st.file.cmds ++
          (if cfg.storeStdout then st.buffer else st.buffer.map stripEntryOut) →
        JsonCommandField.getitem st fld dflt (.int i) =
          JsonCommandField.getitem st2 fld dflt (.int i) := by
      intro st2 h1 h2 h3 h4 h5
      rw [getitem_int_eq st fld dflt i hrem hS0]
      rw [getitem_int_eq st2 fld dflt i h1 (by rw [h2, h3]; exact hS0)]
      rw [getItemInt_eq_file st2 fld dflt _ i hi0
        (by rw [h2, h3, h4]; simp; omega)]
      rw [h5]
      by_cases hc : (st.file.cmds.length : Int) ≤ i
      · rw [getItemInt_eq_buffer st fld dflt _ i hi0 (by omega)]
        simp only [List.get?_eq_getElem?]
        rw [List.getElem?_append_right (by omega : st.file.cmds.length ≤ i.toNat)]
        have hidx : (i + (st.buffer.length : Int) -
            ((st._len : Int) - (st._skipped : Int))).toNat =
            i.toNat - st.file.cmds.length := by
          omega
        rw [hidx]
        by_cases hs : cfg.storeStdout
        · rw [if_pos hs]
        · rw [if_neg hs]
          have hfld : fld ≠ CField.out := hout.resolve_right hs
          rw [List.getElem?_map]
          cases hbk : st.buffer[i.toNat - st.file.cmds.length]? with
          | none => rfl
          | some e => simp [getField_stripEntryOut e fld dflt hfld]
      · rw [getItemInt_eq_file st fld dflt _ i hi0 (by omega)]
        simp only [List.get?_eq_getElem?]
        rw [List.getElem?_append_left (by omega : i.toNat < st.file.cmds.length)]
    rw [hflush]
    exact key _ hrem rfl rfl rfl rfl

/-- Witness for C5 amended: a state with one flushed and one buffered
command, read at the buffered index 1 for field `inp`, gives the same
value before and after the flush. -/
theorem getitem_value_stable_across_flush_witness :
    JsonCommandField.getitem
        { stFlushedOne with buffer := [entryOutHello], _len := 2 } CField.inp none (.int 1) =
      JsonCommandField.getitem
        (JsonHistory.flush cfgPlain false 0
          { stFlushedOne with buffer := [entryOutHello], _len := 2 })
        CField.inp none (.int 1) :=
  getitem_value_stable_across_flush
    { stFlushedOne with buffer := [entryOutHello], _len := 2 } cfgPlain CField.inp none 1
    rfl rfl rfl (Or.inl (by decide)) (by decide) (by decide) (by decide)
